import Mathlib

/-!
Verification development for the PVZ PAK extractor/repacker
(`PVZ_Extractor.py`, class `PvzPakExtractor`).

Byte strings are modelled as `List Nat` (each element a byte value `< 256`
where the Python code manipulates `bytes`).  Fallible Python operations
(`struct.unpack`, `bytes.__getitem__`, `bytearray.append` range checks,
`str.encode('latin-1')`) are modelled with `Except PyError`.

Filenames are kept as their latin-1 byte sequences: `bytes.decode('latin-1')`
and `str.encode('latin-1')` are mutually inverse bijections between byte
strings and strings of characters below 256, so the decode/encode pair in
the source corresponds to the identity on the byte lists used here.
-/

/-- Errors raised by the modelled Python primitives:
`structError` for `struct.error`, `indexError` for `IndexError` on
`bytes` indexing, `valueError` for `bytearray.append` range violations and
latin-1 encoding failures. -/
inductive PyError where
  | structError
  | indexError
  | valueError
deriving DecidableEq, Repr

deriving instance DecidableEq for Except

/-- Little-endian value of a byte list (`struct.unpack` interpretations). -/
def leVal : List Nat → Nat
  | [] => 0
  | b :: rest => b + 256 * leVal rest

/-- Little-endian encoding of `v` on `n` bytes (`struct.pack`). -/
def leBytes : Nat → Nat → List Nat
  | 0, _ => []
  | n + 1, v => v % 256 :: leBytes n (v / 256)

/-- `struct.pack` with format `<I` (`n = 4`) or `<Q` (`n = 8`): fails with
`struct.error` when the value does not fit. -/
def packLE (n v : Nat) : Except PyError (List Nat) :=
  if v < 2 ^ (8 * n) then .ok (leBytes n v) else .error .structError

/-- `struct.unpack_from('<I'/'<Q', data, pos)`: reads `n` bytes little-endian
at offset `pos`, failing with `struct.error` when the buffer is too short. -/
def unpack_from (n : Nat) (data : List Nat) (pos : Nat) : Except PyError Nat :=
  if pos + n ≤ data.length then .ok (leVal ((data.drop pos).take n))
  else .error .structError

/-- `data[pos]` on Python `bytes`: `IndexError` when out of range. -/
def readByte (data : List Nat) (pos : Nat) : Except PyError Nat :=
  if pos < data.length then .ok (data.getD pos 0) else .error .indexError

/-- `PvzPakExtractor.xor_data`, inner loop:
`result.append(byte ^ key[i % key_len])` for `i` running from the given
start index over `data`. -/
def xorFrom (key : List Nat) : Nat → List Nat → List Nat
  | _, [] => []
  | i, b :: rest => (b ^^^ key.getD (i % key.length) 0) :: xorFrom key (i + 1) rest

/-- `PvzPakExtractor.xor_data(data, key)`: identity for an empty key,
otherwise XOR with the key repeated cyclically. -/
def xor_data (data key : List Nat) : List Nat :=
  if key.isEmpty then data else xorFrom key 0 data

/-- The magic signature `0xbac04ac0` checked by the extractor. -/
def pakSignature : Nat := 0xbac04ac0

/-- `PvzPakExtractor.passwords`, each password converted to its key
`[ord(c) for c in password]` as done at the top of `find_correct_key`.
The passwords are `"1celowniczy23osral4kibel"`, `"www#quarterdigi@com"`,
`"bigfish"` and `""` (the empty password, giving the empty key). -/
def passwordKeys : List (List Nat) :=
  [ [49, 99, 101, 108, 111, 119, 110, 105, 99, 122, 121, 50, 51, 111, 115,
     114, 97, 108, 52, 107, 105, 98, 101, 108]
  , [119, 119, 119, 35, 113, 117, 97, 114, 116, 101, 114, 100, 105, 103,
     105, 64, 99, 111, 109]
  , [98, 105, 103, 102, 105, 115, 104]
  , [] ]

/-- `struct.unpack('<I', bs)`: requires exactly 4 bytes. -/
def unpackU32 (bs : List Nat) : Except PyError Nat :=
  if bs.length = 4 then .ok (leVal bs) else .error .structError

/-- First tier of `find_correct_key`: the password loop.  Each candidate is
tested by XORing the first 4 bytes and comparing the little-endian u32
against the signature; the `len(test_data) >= 4` guard appears in the
source for this tier only. -/
def tier1Find : List (List Nat) → List Nat → Option (List Nat)
  | [], _ => none
  | k :: ks, fd =>
    let t := xor_data (fd.take 4) k
    if 4 ≤ t.length ∧ leVal t = pakSignature then some k else tier1Find ks fd

/-- Third tier of `find_correct_key`: `for xor_key in range(0xff, 0, -1)`,
each single-byte key tested by `struct.unpack('<I', ...)` on the XORed
first four bytes (unguarded, so a short input raises `struct.error`). -/
def tierScan (fd : List Nat) : List Nat → Except PyError (Option (List Nat))
  | [] => .ok none
  | k :: ks =>
    match unpackU32 (xor_data (fd.take 4) [k]) with
    | .error e => .error e
    | .ok sig => if sig = pakSignature then .ok (some [k]) else tierScan fd ks

/-- The descending scan range `range(0xff, 0, -1)` = `[255, 254, ..., 1]`. -/
def scanKeys : List Nat := (List.range 255).map (fun i => 255 - i)

/-- `PvzPakExtractor.find_correct_key(file_data)`: password list first, then
the known single-byte key `0xf7`, then the descending scan; `.ok none`
models the `return None` fall-through. -/
def find_correct_key (fd : List Nat) : Except PyError (Option (List Nat)) :=
  match tier1Find passwordKeys fd with
  | some k => .ok (some k)
  | none =>
    match unpackU32 (xor_data (fd.take 4) [0xf7]) with
    | .error e => .error e
    | .ok sig =>
      if sig = pakSignature then .ok (some [0xf7])
      else tierScan fd scanKeys

/-- Specification-side candidate order claimed for `find_correct_key`:
passwords in list order, then `[0xf7]`, then `[255]` down to `[1]`. -/
def candidateList : List (List Nat) :=
  passwordKeys ++ [0xf7] :: scanKeys.map (fun k => [k])

/-- Specification-side signature test: decrypt the first 4 bytes with the
candidate and compare the little-endian u32 against the signature. -/
def checkCand (fd k : List Nat) : Bool :=
  leVal (xor_data (fd.take 4) k) == pakSignature

/-- One row of the entry table, as collected in `file_entries` by
`extract_pak` and stored in the manifest (`[filename, size, timestamp,
flags]`, flags defaulting to 0 when the compact form omits them). -/
structure Entry where
  filename : List Nat
  size : Nat
  timestamp : Nat
  flags : Nat
deriving DecidableEq, Repr, Inhabited

/-- The persisted manifest: `{'version': 1, 'xor_key': ..., 'files': ...}`.
The `version` field is the constant manifest-format version written by
`extract_pak`; the archive's own version is not stored. -/
structure Manifest where
  version : Nat
  xor_key : List Nat
  files : List Entry
deriving DecidableEq, Repr, Inhabited

/-- Fuel-indexed version of the entry-table loop of `extract_pak`
(lines 118-152): reads `flags`, stops on a set high bit, otherwise reads
`name_size`, the filename slice, the `<I` size and the `<Q` timestamp
(`use_compression` is `False`, so no compressed size field), then
continues at the next record.  The fuel only serves termination; it is
never exhausted when it exceeds `data.length - pos` (each iteration
advances the position). -/
def parseEntriesF (data : List Nat) : Nat → Nat → Except PyError (List Entry × Nat)
  | 0, _ => .error .structError
  | fuel + 1, pos =>
    if pos < data.length then
      let flags := data.getD pos 0
      if flags &&& 0x80 ≠ 0 then .ok ([], pos + 1)
      else
        match readByte data (pos + 1) with
        | .error e => .error e
        | .ok name_size =>
          let filename := (data.drop (pos + 2)).take name_size
          match unpack_from 4 data (pos + 2 + name_size) with
          | .error e => .error e
          | .ok size =>
            match unpack_from 8 data (pos + 2 + name_size + 4) with
            | .error e => .error e
            | .ok timestamp =>
              match parseEntriesF data fuel (pos + 2 + name_size + 4 + 8) with
              | .error e => .error e
              | .ok (rest, off) =>
                .ok (⟨filename, size, timestamp, flags⟩ :: rest, off)
    else .ok ([], pos)

/-- The entry-table loop of `extract_pak`, started at position `pos` of the
decrypted buffer; returns the parsed entries and the final position
(`data_offset`). -/
def parseEntries (data : List Nat) (pos : Nat) : Except PyError (List Entry × Nat) :=
  parseEntriesF data (data.length + 1) pos

/-- The payload loop of `extract_pak` (lines 158-174): assigns each entry
the running offset and the slice `decrypted[pos : pos + size]`. -/
def payloadPass (decrypted : List Nat) (pos : Nat) : List Entry → List (Nat × List Nat)
  | [] => []
  | e :: rest =>
    (pos, (decrypted.drop pos).take e.size) :: payloadPass decrypted (pos + e.size) rest

/-- Failures of `extract_pak`: no key found (`return False` after the key
search), bad signature after decryption (`return False`), or a propagated
Python exception. -/
inductive ExtractError where
  | keyNotFound
  | badSignature
  | py (e : PyError)
deriving DecidableEq, Repr

/-- Everything `extract_pak` derives from the archive bytes: the archive
version, parsed entries, payload start offset, the decrypted buffer, the
(offset, payload) pairs in table order, and the persisted manifest. -/
structure ExtractResult where
  version : Nat
  entries : List Entry
  dataOffset : Nat
  decrypted : List Nat
  extracted : List (Nat × List Nat)
  manifest : Manifest
deriving DecidableEq, Repr, Inhabited

/-- Core of `PvzPakExtractor.extract_pak` on in-memory archive bytes
(filesystem orchestration omitted): key recovery, whole-buffer
decryption, signature and version reads, entry-table parse, payload
slicing, manifest construction. -/
def extract_pak (file_data : List Nat) : Except ExtractError ExtractResult :=
  match find_correct_key file_data with
  | .error e => .error (.py e)
  | .ok none => .error .keyNotFound
  | .ok (some xor_key) =>
    let decrypted := xor_data file_data xor_key
    match unpack_from 4 decrypted 0 with
    | .error e => .error (.py e)
    | .ok signature =>
      if signature ≠ pakSignature then .error .badSignature
      else
        match unpack_from 4 decrypted 4 with
        | .error e => .error (.py e)
        | .ok version =>
          match parseEntries decrypted 8 with
          | .error e => .error (.py e)
          | .ok (entries, dataOffset) =>
            .ok { version := version
                , entries := entries
                , dataOffset := dataOffset
                , decrypted := decrypted
                , extracted := payloadPass decrypted dataOffset entries
                , manifest := { version := 1, xor_key := xor_key, files := entries } }

/-- Failures of `repack_pak`: a payload file missing from the input
directory (`return False`), or a propagated Python exception. -/
inductive RepackError where
  | missingFile
  | py (e : PyError)
deriving DecidableEq, Repr

/-- One iteration of the header loop of `repack_pak` (lines 240-255):
ORs `0x80` into the flags of the last entry, then appends flags, name
length, latin-1 filename bytes, `<I` size and `<Q` timestamp.  The
`bytearray.append` range checks and the latin-1 encode are modelled as
`valueError`. -/
def serializeEntry (isLast : Bool) (e : Entry) : Except PyError (List Nat) :=
  let flags := if isLast then e.flags ||| 0x80 else e.flags
  if flags < 256 then
    if e.filename.length < 256 then
      if e.filename.all (· < 256) then
        match packLE 4 e.size with
        | .error err => .error err
        | .ok sizeB =>
          match packLE 8 e.timestamp with
          | .error err => .error err
          | .ok tsB => .ok (flags :: e.filename.length :: (e.filename ++ sizeB ++ tsB))
      else .error .valueError
    else .error .valueError
  else .error .valueError

/-- The header loop of `repack_pak` over all manifest entries;
`i == len(file_entries) - 1` is modelled as "rest of list is empty". -/
def serializeEntries : List Entry → Except PyError (List Nat)
  | [] => .ok []
  | e :: rest =>
    match serializeEntry rest.isEmpty e with
    | .error err => .error err
    | .ok b =>
      match serializeEntries rest with
      | .error err => .error err
      | .ok bs => .ok (b ++ bs)

/-- The payload loop of `repack_pak` (lines 262-274): reads each entry's
file through the provider (the input directory) and concatenates the
contents; a missing file aborts.  No length validation is performed. -/
def collectPayloads (provider : List Nat → Option (List Nat)) :
    List Entry → Except RepackError (List Nat)
  | [] => .ok []
  | e :: rest =>
    match provider e.filename with
    | none => .error .missingFile
    | some d =>
      match collectPayloads provider rest with
      | .error err => .error err
      | .ok ds => .ok (d ++ ds)

/-- `repack_pak` up to (but not including) the XOR encryption step:
signature, constant version 0, entry records, then the payload bytes. -/
def buildPak (m : Manifest) (provider : List Nat → Option (List Nat)) :
    Except RepackError (List Nat) :=
  match serializeEntries m.files with
  | .error e => .error (.py e)
  | .ok table =>
    match collectPayloads provider m.files with
    | .error e => .error e
    | .ok payload =>
      .ok (leBytes 4 pakSignature ++ (leBytes 4 0 ++ (table ++ payload)))

/-- Core of `PvzPakExtractor.repack_pak` on an in-memory manifest and
payload provider: build the plain archive, then encrypt it with the
manifest's key. -/
def repack_pak (m : Manifest) (provider : List Nat → Option (List Nat)) :
    Except RepackError (List Nat) :=
  match buildPak m provider with
  | .error e => .error e
  | .ok pak => .ok (xor_data pak m.xor_key)

/-- Combined errors of a repack-then-unpack round trip. -/
inductive ToolError where
  | repack (e : RepackError)
  | extract (e : ExtractError)
deriving DecidableEq, Repr

/-- The round trip of the spec's testable property: repack a manifest, then
run a full extraction (fresh key recovery included) on the result. -/
def unpack_of_repack (m : Manifest) (provider : List Nat → Option (List Nat)) :
    Except ToolError ExtractResult :=
  match repack_pak m provider with
  | .error e => .error (.repack e)
  | .ok bs =>
    match extract_pak bs with
    | .error e => .error (.extract e)
    | .ok r => .ok r

/-- The serialized record of one non-terminal entry, as both written by
`repack_pak` (for non-last entries) and consumed by the parse loop. -/
def entryRecord (e : Entry) : List Nat :=
  e.flags :: e.filename.length :: (e.filename ++ leBytes 4 e.size ++ leBytes 8 e.timestamp)

/-- A sequence of serialized entry records. -/
def tableRecords (es : List Entry) : List Nat :=
  (es.map entryRecord).flatten

/-- Well-formedness of an entry as a table row of a real byte buffer:
byte-sized flags with clear high bit, byte-sized name length, byte values
in the filename, and field values fitting their fixed-width encodings. -/
def wfEntry (e : Entry) : Prop :=
  e.flags &&& 0x80 = 0 ∧ e.flags < 256 ∧ e.filename.length < 256 ∧
    (∀ b ∈ e.filename, b < 256) ∧ e.size < 2 ^ 32 ∧ e.timestamp < 2 ^ 64

instance (e : Entry) : Decidable (wfEntry e) := by
  unfold wfEntry; infer_instance

-- Concrete inputs used by the scenario claims.

/-- The byte string of `"a.txt"`. -/
def aName : List Nat := [97, 46, 116, 120, 116]

/-- The scenario manifest: key `[0xf7]`, one entry
`("a.txt", size=3, timestamp=0, flags=0)`. -/
def m1 : Manifest := ⟨1, [0xf7], [⟨aName, 3, 0, 0⟩]⟩

/-- Scenario payload provider: `"a.txt"` holds `b"xyz"`. -/
def p1 : List Nat → Option (List Nat) :=
  fun n => if n = aName then some [120, 121, 122] else none

/-- Provider delivering a payload of the wrong length (2 bytes instead of
the manifest's recorded size 3). -/
def p6 : List Nat → Option (List Nat) :=
  fun n => if n = aName then some [120, 121] else none

/-- A valid unencrypted archive (key is the empty password): signature,
version 0, one record `("a", size=1, timestamp=0, flags=0)`, the `0x80`
end marker, and a 1-byte payload. -/
def fd9 : List Nat :=
  [0xc0, 0x4a, 0xc0, 0xba, 0, 0, 0, 0,
   0, 1, 97, 1, 0, 0, 0, 0, 0, 0, 0, 0, 0, 0, 0, 0x80, 55]

/-- The extraction result for `fd9`. -/
def r9 : ExtractResult :=
  ⟨0, [⟨[97], 1, 0, 0⟩], 24, fd9, [(24, [55])], ⟨1, [], [⟨[97], 1, 0, 0⟩]⟩⟩

/-- The plain (pre-encryption) archive bytes repack builds for `m1`/`p1`. -/
def d1 : List Nat :=
  [0xc0, 0x4a, 0xc0, 0xba, 0, 0, 0, 0,
   0x80, 5, 97, 46, 116, 120, 116, 3, 0, 0, 0, 0, 0, 0, 0, 0, 0, 0, 0,
   120, 121, 122]

theorem leBytes_length (n v : Nat) : (leBytes n v).length = n := by
  induction n generalizing v with
  | zero => rfl
  | succ n ih => simp [leBytes, ih]

theorem leVal_leBytes (n v : Nat) (h : v < 2 ^ (8 * n)) : leVal (leBytes n v) = v := by
  induction n generalizing v with
  | zero =>
    simp only [Nat.mul_zero, pow_zero, Nat.lt_one_iff] at h
    simp [leBytes, leVal, h]
  | succ n ih =>
    have hdiv : v / 256 < 2 ^ (8 * n) := by
      apply Nat.div_lt_of_lt_mul
      calc v < 2 ^ (8 * (n + 1)) := h
        _ = 256 * 2 ^ (8 * n) := by ring
  -- fold the recursion back together
    simp only [leBytes, leVal, ih (v / 256) hdiv]
    omega

theorem xorFrom_length (key : List Nat) (i : Nat) (l : List Nat) :
    (xorFrom key i l).length = l.length := by
  induction l generalizing i with
  | nil => rfl
  | cons b rest ih => simp [xorFrom, ih]

theorem xor_data_length (data key : List Nat) : (xor_data data key).length = data.length := by
  unfold xor_data
  split
  · rfl
  · exact xorFrom_length key 0 data

theorem xorFrom_involution (key : List Nat) (i : Nat) (l : List Nat) :
    xorFrom key i (xorFrom key i l) = l := by
  induction l generalizing i with
  | nil => rfl
  | cons b rest ih =>
    simp [xorFrom, ih (i + 1), Nat.xor_cancel_right]

theorem getD_eq_headD_drop (l : List Nat) (n d : Nat) : l.getD n d = (l.drop n).headD d := by
  induction l generalizing n with
  | nil => simp [List.getD]
  | cons x xs ih =>
    cases n with
    | zero => rfl
    | succ n => simp only [List.getD_cons_succ, List.drop_succ_cons, ih n]

theorem getD_of_drop (data : List Nat) (pos b : Nat) (rest : List Nat)
    (h : data.drop pos = b :: rest) : data.getD pos 0 = b := by
  rw [getD_eq_headD_drop, h]; rfl

theorem lt_of_drop_cons (data : List Nat) (pos b : Nat) (rest : List Nat)
    (h : data.drop pos = b :: rest) : pos < data.length := by
  have hl := congrArg List.length h
  simp [List.length_drop] at hl
  omega

theorem readByte_of_drop (data : List Nat) (pos b : Nat) (rest : List Nat)
    (h : data.drop pos = b :: rest) : readByte data pos = .ok b := by
  unfold readByte
  rw [if_pos (lt_of_drop_cons data pos b rest h), getD_of_drop data pos b rest h]

theorem unpack_from_of_drop (n : Nat) (data : List Nat) (pos v : Nat) (rest : List Nat)
    (hn : 0 < n) (hv : v < 2 ^ (8 * n)) (h : data.drop pos = leBytes n v ++ rest) :
    unpack_from n data pos = .ok v := by
  have hl := congrArg List.length h
  simp [List.length_drop, leBytes_length] at hl
  unfold unpack_from
  rw [if_pos (by omega), h, List.take_left' (leBytes_length n v), leVal_leBytes n v hv]

theorem parseEntriesF_fuel (data : List Nat) (f : Nat) :
    ∀ (g pos : Nat), data.length - pos < f → data.length - pos < g →
      parseEntriesF data f pos = parseEntriesF data g pos := by
  induction f with
  | zero => intro g pos hf hg; omega
  | succ f ih =>
    intro g pos hf hg
    cases g with
    | zero => omega
    | succ g =>
      simp only [parseEntriesF]
      by_cases hp : pos < data.length
      · rw [if_pos hp, if_pos hp]
        by_cases hm : data.getD pos 0 &&& 0x80 ≠ 0
        · rw [if_pos hm, if_pos hm]
        · rw [if_neg hm, if_neg hm]
          cases hrb : readByte data (pos + 1) with
          | error e => rfl
          | ok ns =>
            dsimp only
            cases h4 : unpack_from 4 data (pos + 2 + ns) with
            | error e => rfl
            | ok size =>
              dsimp only
              cases h8 : unpack_from 8 data (pos + 2 + ns + 4) with
              | error e => rfl
              | ok ts =>
                dsimp only
                rw [ih g (pos + 2 + ns + 4 + 8) (by omega) (by omega)]
      · rw [if_neg hp, if_neg hp]

theorem parseEntries_marker (data : List Nat) (pos : Nat) (hp : pos < data.length)
    (hm : data.getD pos 0 &&& 0x80 ≠ 0) :
    parseEntries data pos = .ok ([], pos + 1) := by
  unfold parseEntries
  simp only [parseEntriesF]
  rw [if_pos hp, if_pos hm]

theorem entryRecord_length (e : Entry) :
    (entryRecord e).length = 14 + e.filename.length := by
  simp [entryRecord, leBytes_length]
  omega

theorem parseEntriesF_cons (pre rest : List Nat) (e : Entry) (hwf : wfEntry e) (fuel : Nat) :
    parseEntriesF (pre ++ (entryRecord e ++ rest)) (fuel + 1) pre.length
      = Except.map (fun p => (e :: p.1, p.2))
          (parseEntriesF (pre ++ (entryRecord e ++ rest)) fuel
            (pre.length + (entryRecord e).length)) := by
  obtain ⟨hbit, hfl, hnl, hnb, hsz, hts⟩ := hwf
  have hreclen := entryRecord_length e
  set D := pre ++ (entryRecord e ++ rest) with hD
  have hd0 : D.drop pre.length = entryRecord e ++ rest := List.drop_left pre _
  have hd0' : D.drop pre.length
      = e.flags :: e.filename.length ::
          (e.filename ++ (leBytes 4 e.size ++ (leBytes 8 e.timestamp ++ rest))) := by
    rw [hd0]; simp [entryRecord]
  have hDlen : D.length = pre.length + ((14 + e.filename.length) + rest.length) := by
    rw [hD]
    simp [List.length_append, hreclen]
  have hd1 : D.drop (pre.length + 1)
      = e.filename.length ::
          (e.filename ++ (leBytes 4 e.size ++ (leBytes 8 e.timestamp ++ rest))) := by
    rw [← List.drop_drop, hd0']
    rfl
  have hd2 : D.drop (pre.length + 2)
      = e.filename ++ (leBytes 4 e.size ++ (leBytes 8 e.timestamp ++ rest)) := by
    rw [show pre.length + 2 = pre.length + 1 + 1 by omega, ← List.drop_drop, hd1]
    rfl
  have hd3 : D.drop (pre.length + 2 + e.filename.length)
      = leBytes 4 e.size ++ (leBytes 8 e.timestamp ++ rest) := by
    rw [← List.drop_drop, hd2, List.drop_left' rfl]
  have hd4 : D.drop (pre.length + 2 + e.filename.length + 4)
      = leBytes 8 e.timestamp ++ rest := by
    rw [← List.drop_drop, hd3, List.drop_left' (leBytes_length 4 e.size)]
  have hflags : D.getD pre.length 0 = e.flags := getD_of_drop _ _ _ _ hd0'
  have hpos : pre.length < D.length := by omega
  have hrb : readByte D (pre.length + 1) = .ok e.filename.length :=
    readByte_of_drop _ _ _ _ hd1
  have hname : (D.drop (pre.length + 2)).take e.filename.length = e.filename := by
    rw [hd2, List.take_left' rfl]
  have hu4 : unpack_from 4 D (pre.length + 2 + e.filename.length) = .ok e.size :=
    unpack_from_of_drop 4 D _ e.size _ (by omega) hsz hd3
  have hu8 : unpack_from 8 D (pre.length + 2 + e.filename.length + 4) = .ok e.timestamp :=
    unpack_from_of_drop 8 D _ e.timestamp _ (by omega) hts hd4
  conv_lhs => rw [parseEntriesF]
  rw [if_pos hpos, hflags, if_neg (by simp [hbit]), hrb]
  dsimp only
  rw [hname, hu4]
  dsimp only
  rw [hu8]
  dsimp only
  rw [show pre.length + 2 + e.filename.length + 4 + 8
        = pre.length + (entryRecord e).length by omega]
  cases hF : parseEntriesF D fuel (pre.length + (entryRecord e).length) with
  | error err => rfl
  | ok p => rfl

theorem parseEntries_cons (pre rest : List Nat) (e : Entry) (hwf : wfEntry e) :
    parseEntries (pre ++ (entryRecord e ++ rest)) pre.length
      = Except.map (fun p => (e :: p.1, p.2))
          (parseEntries (pre ++ (entryRecord e ++ rest))
            (pre.length + (entryRecord e).length)) := by
  have hreclen := entryRecord_length e
  have hDlen : (pre ++ (entryRecord e ++ rest)).length
      = pre.length + ((14 + e.filename.length) + rest.length) := by
    simp [List.length_append, hreclen]
  unfold parseEntries
  rw [show (pre ++ (entryRecord e ++ rest)).length + 1
        = ((pre ++ (entryRecord e ++ rest)).length) + 1 from rfl]
  rw [parseEntriesF_cons pre rest e hwf ((pre ++ (entryRecord e ++ rest)).length)]
  rw [parseEntriesF_fuel (pre ++ (entryRecord e ++ rest))
        ((pre ++ (entryRecord e ++ rest)).length)
        ((pre ++ (entryRecord e ++ rest)).length + 1)
        (pre.length + (entryRecord e).length) (by omega) (by omega)]

theorem tableRecords_cons (e : Entry) (es : List Entry) :
    tableRecords (e :: es) = entryRecord e ++ tableRecords es := by
  simp [tableRecords]

/-- C4: parsing the entry table stops exactly at the first record whose flags
byte has the high bit set; that terminating byte contributes no entry, the
records before it are returned as data entries in order, and the final
position (the payload start offset) is the byte position immediately after
the marker byte. -/
theorem parse_stops_at_first_marker (es : List Entry) :
    ∀ (pre : List Nat), (∀ e ∈ es, wfEntry e) → ∀ (m : Nat) (post : List Nat),
      m &&& 0x80 ≠ 0 →
      parseEntries (pre ++ (tableRecords es ++ m :: post)) pre.length
        = .ok (es, pre.length + (tableRecords es).length + 1) := by
  induction es with
  | nil =>
    intro pre _ m post hm
    have htr : tableRecords ([] : List Entry) = [] := rfl
    rw [htr]
    simp only [List.nil_append]
    have hd : (pre ++ m :: post).drop pre.length = m :: post := List.drop_left _ _
    rw [parseEntries_marker _ _ (lt_of_drop_cons _ _ _ _ hd)
          (by rw [getD_of_drop _ _ _ _ hd]; exact hm)]
    simp
  | cons e es' ih =>
    intro pre hwf m post hm
    rw [tableRecords_cons, List.append_assoc (entryRecord e) (tableRecords es') (m :: post)]
    rw [parseEntries_cons pre (tableRecords es' ++ m :: post) e (hwf e (by simp))]
    rw [show pre ++ (entryRecord e ++ (tableRecords es' ++ m :: post))
          = (pre ++ entryRecord e) ++ (tableRecords es' ++ m :: post)
        from (List.append_assoc _ _ _).symm]
    rw [show pre.length + (entryRecord e).length = (pre ++ entryRecord e).length
        from (List.length_append _ _).symm]
    rw [ih (pre ++ entryRecord e) (fun x hx => hwf x (by simp [hx])) m post hm]
    simp [Except.map, List.length_append]
    omega

/-- C8: a buffer whose entry table is cut off in the middle of a record (so
that the name-length, filename, size, or timestamp read would run past the
end of the buffer) makes the parse fail with an error instead of returning
entries or silently truncating a field. -/
theorem parse_truncated_record_errors (es : List Entry) :
    ∀ (pre : List Nat), (∀ x ∈ es, wfEntry x) → ∀ (e : Entry) (k : Nat),
      wfEntry e → 1 ≤ k → k < (entryRecord e).length →
      ∃ err, parseEntries (pre ++ (tableRecords es ++ (entryRecord e).take k))
               pre.length = .error err := by
  induction es with
  | nil =>
    intro pre _ e k hwfe hk1 hk2
    obtain ⟨hbit, hfl, hnl, hnb, hsz, hts⟩ := hwfe
    have hreclen := entryRecord_length e
    have htr : tableRecords ([] : List Entry) = [] := rfl
    rw [htr]
    simp only [List.nil_append]
    cases k with
    | zero => omega
    | succ k' =>
      have hTake : (entryRecord e).take (k' + 1)
          = e.flags :: ((e.filename.length ::
              (e.filename ++ leBytes 4 e.size ++ leBytes 8 e.timestamp)).take k') := by
        simp [entryRecord, List.take_succ_cons]
      rw [hTake]
      cases k' with
      | zero =>
        refine ⟨.indexError, ?_⟩
        have hd0 : (pre ++ e.flags :: ((e.filename.length ::
            (e.filename ++ leBytes 4 e.size ++ leBytes 8 e.timestamp)).take 0)).drop pre.length
            = [e.flags] := by
          rw [List.drop_left pre _]
          rfl
        have hp := lt_of_drop_cons _ _ _ _ hd0
        have hlen : (pre ++ e.flags :: ((e.filename.length ::
            (e.filename ++ leBytes 4 e.size ++ leBytes 8 e.timestamp)).take 0)).length
            = pre.length + 1 := by simp
        unfold parseEntries
        simp only [parseEntriesF]
        rw [if_pos hp, getD_of_drop _ _ _ _ hd0, if_neg (by simp [hbit])]
        rw [show readByte (pre ++ e.flags :: ((e.filename.length ::
              (e.filename ++ leBytes 4 e.size ++ leBytes 8 e.timestamp)).take 0))
              (pre.length + 1) = .error .indexError from by
          unfold readByte
          rw [if_neg (by omega)]]
      | succ k'' =>
        have hTake2 : (e.filename.length ::
            (e.filename ++ leBytes 4 e.size ++ leBytes 8 e.timestamp)).take (k'' + 1)
            = e.filename.length ::
                ((e.filename ++ leBytes 4 e.size ++ leBytes 8 e.timestamp)).take k'' := by
          simp [List.take_succ_cons]
        rw [hTake2]
        have hBlen : (((e.filename ++ leBytes 4 e.size ++ leBytes 8 e.timestamp)).take k'').length
            = k'' := by
          rw [List.length_take]
          simp only [List.length_append, leBytes_length]
          omega
        have hd0 : (pre ++ e.flags :: e.filename.length ::
            ((e.filename ++ leBytes 4 e.size ++ leBytes 8 e.timestamp)).take k'').drop pre.length
            = e.flags :: e.filename.length ::
                ((e.filename ++ leBytes 4 e.size ++ leBytes 8 e.timestamp)).take k'' :=
          List.drop_left _ _
        have hp := lt_of_drop_cons _ _ _ _ hd0
        have hd1 : (pre ++ e.flags :: e.filename.length ::
            ((e.filename ++ leBytes 4 e.size ++ leBytes 8 e.timestamp)).take k'').drop
              (pre.length + 1)
            = e.filename.length ::
                ((e.filename ++ leBytes 4 e.size ++ leBytes 8 e.timestamp)).take k'' := by
          rw [← List.drop_drop, hd0]
          rfl
        have hlen : (pre ++ e.flags :: e.filename.length ::
            ((e.filename ++ leBytes 4 e.size ++ leBytes 8 e.timestamp)).take k'').length
            = pre.length + (2 + k'') := by
          simp only [List.length_append, List.length_cons, hBlen]
          omega
        unfold parseEntries
        simp only [parseEntriesF]
        rw [if_pos hp, getD_of_drop _ _ _ _ hd0, if_neg (by simp [hbit])]
        rw [readByte_of_drop _ _ _ _ hd1]
        dsimp only
        by_cases h4 : e.filename.length + 4 ≤ k''
        · have hu4 : unpack_from 4 (pre ++ e.flags :: e.filename.length ::
              ((e.filename ++ leBytes 4 e.size ++ leBytes 8 e.timestamp)).take k'')
              (pre.length + 2 + e.filename.length)
              = .ok (leVal (((pre ++ e.flags :: e.filename.length ::
                  ((e.filename ++ leBytes 4 e.size ++ leBytes 8 e.timestamp)).take k'').drop
                    (pre.length + 2 + e.filename.length)).take 4)) := by
            unfold unpack_from
            rw [if_pos (by omega)]
          refine ⟨.structError, ?_⟩
          rw [hu4]
          dsimp only
          rw [show unpack_from 8 (pre ++ e.flags :: e.filename.length ::
                ((e.filename ++ leBytes 4 e.size ++ leBytes 8 e.timestamp)).take k'')
                (pre.length + 2 + e.filename.length + 4) = .error .structError from by
            unfold unpack_from
            rw [if_neg (by omega)]]
        · refine ⟨.structError, ?_⟩
          rw [show unpack_from 4 (pre ++ e.flags :: e.filename.length ::
                ((e.filename ++ leBytes 4 e.size ++ leBytes 8 e.timestamp)).take k'')
                (pre.length + 2 + e.filename.length) = .error .structError from by
            unfold unpack_from
            rw [if_neg (by omega)]]
  | cons e' es' ih =>
    intro pre hwf e k hwfe hk1 hk2
    rw [tableRecords_cons,
        List.append_assoc (entryRecord e') (tableRecords es') ((entryRecord e).take k)]
    rw [parseEntries_cons pre (tableRecords es' ++ (entryRecord e).take k) e'
          (hwf e' (by simp))]
    rw [show pre ++ (entryRecord e' ++ (tableRecords es' ++ (entryRecord e).take k))
          = (pre ++ entryRecord e') ++ (tableRecords es' ++ (entryRecord e).take k)
        from (List.append_assoc _ _ _).symm]
    rw [show pre.length + (entryRecord e').length = (pre ++ entryRecord e').length
        from (List.length_append _ _).symm]
    obtain ⟨err, herr⟩ :=
      ih (pre ++ entryRecord e') (fun x hx => hwf x (by simp [hx])) e k hwfe hk1 hk2
    refine ⟨err, ?_⟩
    rw [herr]
    rfl

/-- C5: the XOR transform is an involution for every non-empty key, the
identity for the empty key, and always length-preserving. -/
theorem xor_data_involutive (data key : List Nat) :
    (key ≠ [] → xor_data (xor_data data key) key = data) ∧
    xor_data data [] = data ∧
    (xor_data data key).length = data.length := by
  refine ⟨fun hk => ?_, by simp [xor_data], xor_data_length data key⟩
  have h : key.isEmpty = false := by
    cases key with
    | nil => exact absurd rfl hk
    | cons a as => rfl
  simp [xor_data, h, xorFrom_involution]

/-- Witness for C5 at concrete inputs. -/
theorem xor_data_involutive_witness :
    xor_data (xor_data [1, 2, 3] [5, 7]) [5, 7] = [1, 2, 3] ∧
    xor_data [9, 9] [] = [9, 9] ∧
    (xor_data [4] [6]).length = ([4] : List Nat).length :=
  ⟨(xor_data_involutive [1, 2, 3] [5, 7]).1 (by decide),
   (xor_data_involutive [9, 9] []).2.1,
   (xor_data_involutive [4] [6]).2.2⟩

theorem payloadPass_getD (es : List Entry) :
    ∀ (d : List Nat) (pos i : Nat), i < es.length →
      (payloadPass d pos es).getD i default
        = (pos + ((es.take i).map Entry.size).sum,
           (d.drop (pos + ((es.take i).map Entry.size).sum)).take
             ((es.getD i default).size)) := by
  induction es with
  | nil => intro d pos i h; simp at h
  | cons e es' ih =>
    intro d pos i h
    cases i with
    | zero => simp [payloadPass]
    | succ i =>
      have h' : i < es'.length := by simpa using h
      simp only [payloadPass, List.getD_cons_succ]
      rw [ih d (pos + e.size) i h']
      simp [List.take_succ_cons, Nat.add_assoc]

theorem extract_pak_extracted (fd : List Nat) (r : ExtractResult)
    (h : extract_pak fd = .ok r) :
    r.extracted = payloadPass r.decrypted r.dataOffset r.entries := by
  unfold extract_pak at h
  cases hk : find_correct_key fd with
  | error e => rw [hk] at h; simp at h
  | ok o =>
    rw [hk] at h
    cases o with
    | none => simp at h
    | some key =>
      dsimp only at h
      cases h0 : unpack_from 4 (xor_data fd key) 0 with
      | error e => rw [h0] at h; simp at h
      | ok signature =>
        rw [h0] at h
        dsimp only at h
        by_cases hs : signature ≠ pakSignature
        · rw [if_pos hs] at h; simp at h
        · rw [if_neg hs] at h
          cases h4 : unpack_from 4 (xor_data fd key) 4 with
          | error e => rw [h4] at h; simp at h
          | ok version =>
            rw [h4] at h
            dsimp only at h
            cases h8 : parseEntries (xor_data fd key) 8 with
            | error e => rw [h8] at h; simp at h
            | ok p =>
              rw [h8] at h
              obtain ⟨entries, dataOffset⟩ := p
              dsimp only at h
              injection h with h
              subst h
              rfl

/-- C9: for every successfully parsed archive, the payload pass assigns
entry `i` the offset `payload start + sum of the sizes of entries 0..i-1`
and the payload slice `decrypted[offset : offset + size]`, so payloads are
contiguous and laid out in exact table order. -/
theorem extract_payload_layout (fd : List Nat) (r : ExtractResult) (i : Nat)
    (h : extract_pak fd = .ok r) (hi : i < r.entries.length) :
    r.extracted.getD i default
      = (r.dataOffset + ((r.entries.take i).map Entry.size).sum,
         (r.decrypted.drop (r.dataOffset + ((r.entries.take i).map Entry.size).sum)).take
           ((r.entries.getD i default).size)) := by
  rw [extract_pak_extracted fd r h]
  exact payloadPass_getD r.entries r.decrypted r.dataOffset i hi

/-- Witness for C9: a one-entry archive whose payload sits at offset 24. -/
theorem extract_payload_layout_witness :
    extract_pak fd9 = .ok r9 ∧ 0 < r9.entries.length ∧
    r9.extracted.getD 0 default
      = (r9.dataOffset + ((r9.entries.take 0).map Entry.size).sum,
         (r9.decrypted.drop (r9.dataOffset + ((r9.entries.take 0).map Entry.size).sum)).take
           ((r9.entries.getD 0 default).size)) :=
  ⟨by decide, by decide, extract_payload_layout fd9 r9 0 (by decide) (by decide)⟩

theorem xorLen4 (fd k : List Nat) (h : 4 ≤ fd.length) :
    (xor_data (fd.take 4) k).length = 4 := by
  rw [xor_data_length]
  rw [List.length_take]
  omega

theorem tier1Find_eq_find? (fd : List Nat) (h : 4 ≤ fd.length) :
    ∀ ks, tier1Find ks fd = ks.find? (checkCand fd) := by
  intro ks
  induction ks with
  | nil => rfl
  | cons k ks ih =>
    have hlen := xorLen4 fd k h
    simp only [tier1Find]
    by_cases hc : leVal (xor_data (fd.take 4) k) = pakSignature
    · rw [if_pos ⟨by omega, hc⟩, List.find?_cons_of_pos _ (by simp [checkCand, hc])]
    · rw [if_neg (by intro hh; exact hc hh.2),
          List.find?_cons_of_neg _ (by simp [checkCand, hc])]
      exact ih

theorem tierScan_eq_find? (fd : List Nat) (h : 4 ≤ fd.length) :
    ∀ ks : List Nat,
      tierScan fd ks = .ok ((ks.map (fun k => [k])).find? (checkCand fd)) := by
  intro ks
  induction ks with
  | nil => rfl
  | cons k ks ih =>
    have hu : unpackU32 (xor_data (fd.take 4) [k])
        = .ok (leVal (xor_data (fd.take 4) [k])) := by
      unfold unpackU32
      rw [if_pos (xorLen4 fd [k] h)]
    simp only [tierScan, List.map_cons]
    rw [hu]
    dsimp only
    by_cases hc : leVal (xor_data (fd.take 4) [k]) = pakSignature
    · rw [if_pos hc, List.find?_cons_of_pos _ (by simp [checkCand, hc])]
    · rw [if_neg hc, List.find?_cons_of_neg _ (by simp [checkCand, hc])]
      exact ih

/-- C3: on any input of at least 4 bytes, `find_correct_key` is exactly a
first-match search over the ordered candidate list (passwords in list
order with the empty key last among them, then `[0xf7]`, then single-byte
keys 255 down to 1), where each candidate is tested only by decrypting the
first 4 bytes and comparing the little-endian u32 with the signature. -/
theorem find_correct_key_order (fd : List Nat) (h : 4 ≤ fd.length) :
    find_correct_key fd = .ok (candidateList.find? (checkCand fd)) := by
  unfold find_correct_key candidateList
  rw [tier1Find_eq_find? fd h passwordKeys, List.find?_append]
  cases hp : passwordKeys.find? (checkCand fd) with
  | some k => rfl
  | none =>
    have hu : unpackU32 (xor_data (fd.take 4) [0xf7])
        = .ok (leVal (xor_data (fd.take 4) [0xf7])) := by
      unfold unpackU32
      rw [if_pos (xorLen4 fd [0xf7] h)]
    rw [hu]
    dsimp only
    by_cases hc : leVal (xor_data (fd.take 4) [0xf7]) = pakSignature
    · rw [if_pos hc, List.find?_cons_of_pos _ (by simp [checkCand, hc])]
      rfl
    · rw [if_neg hc, tierScan_eq_find? fd h,
          List.find?_cons_of_neg _ (by simp [checkCand, hc])]
      rfl

/-- Witness for C3 at a concrete 4-byte input. -/
theorem find_correct_key_order_witness :
    4 ≤ ([0, 0, 0, 0] : List Nat).length ∧
    find_correct_key [0, 0, 0, 0]
      = .ok (candidateList.find? (checkCand [0, 0, 0, 0])) :=
  ⟨by decide, find_correct_key_order [0, 0, 0, 0] (by decide)⟩

/-- C10: whatever the manifest contains, the rebuilt archive's version field
(bytes 4..7 of the plain buffer) is the little-endian constant 0; the
manifest itself carries no archive-version field (its `version` is the
constant manifest-format marker 1), so a nonzero original archive version
cannot be round-tripped. -/
theorem repack_version_field_zero (m : Manifest) (provider : List Nat → Option (List Nat))
    (d : List Nat) (h : buildPak m provider = .ok d) :
    (d.drop 4).take 4 = [0, 0, 0, 0] := by
  unfold buildPak at h
  cases hs : serializeEntries m.files with
  | error e => rw [hs] at h; simp at h
  | ok table =>
    rw [hs] at h
    dsimp only at h
    cases hc : collectPayloads provider m.files with
    | error e => rw [hc] at h; simp at h
    | ok payload =>
      rw [hc] at h
      dsimp only at h
      injection h with h
      subst h
      rfl

/-- Witness for C10: the scenario manifest builds `d1`, whose version field
is zero. -/
theorem repack_version_field_zero_witness :
    buildPak m1 p1 = .ok d1 ∧ (d1.drop 4).take 4 = [0, 0, 0, 0] :=
  ⟨by decide, repack_version_field_zero m1 p1 d1 (by decide)⟩

/-- Witness for C4: a table with one well-formed record, then the `0x80`
marker, then one payload byte. -/
theorem parse_stops_at_first_marker_witness :
    (∀ e ∈ [(⟨[97], 1, 2, 3⟩ : Entry)], wfEntry e) ∧ ((0x80 : Nat) &&& 0x80 ≠ 0) ∧
    parseEntries (([] : List Nat) ++ (tableRecords [⟨[97], 1, 2, 3⟩] ++ 0x80 :: [9]))
        ([] : List Nat).length
      = .ok ([⟨[97], 1, 2, 3⟩],
          ([] : List Nat).length + (tableRecords [⟨[97], 1, 2, 3⟩]).length + 1) :=
  ⟨by decide, by decide,
   parse_stops_at_first_marker [⟨[97], 1, 2, 3⟩] [] (by decide) 0x80 [9] (by decide)⟩

/-- Witness for C8: a buffer holding only the flags byte of a record, so the
name-length read runs past the end. -/
theorem parse_truncated_record_errors_witness :
    wfEntry (⟨[97], 1, 0, 0⟩ : Entry) ∧ (1 : Nat) ≤ 1 ∧
    (1 : Nat) < (entryRecord ⟨[97], 1, 0, 0⟩).length ∧
    ∃ err, parseEntries
        (([] : List Nat) ++ (tableRecords [] ++ (entryRecord ⟨[97], 1, 0, 0⟩).take 1))
        ([] : List Nat).length = .error err :=
  ⟨by decide, by decide, by decide,
   parse_truncated_record_errors [] [] (by decide) ⟨[97], 1, 0, 0⟩ 1 (by decide)
     (by decide) (by decide)⟩

/-- C1 (divergence witness): repacking the one-entry scenario manifest and
then unpacking the produced archive does NOT reproduce the manifest: the
recovered key is `[0xf7]` as recorded, but the entry list and payloads
come back empty, because the parser treats the last record's forced `0x80`
flags byte as the standalone table terminator. -/
theorem repack_roundtrip_drops_last_entry :
    (unpack_of_repack m1 p1).map
        (fun r => (r.manifest.xor_key, r.manifest.files, r.extracted.map Prod.snd))
      = .ok ([0xf7], ([] : List Entry), ([] : List (List Nat)))
    ∧ m1.files.length = 1 :=
  ⟨by decide, by decide⟩

/-- C2 (scenario evaluation): encoding produces the expected 30 plain bytes
with the last entry's flags byte forced to `0x80` and key recovery on the
encrypted result returns `[0xf7]`, but decoding recovers version 0 and NO
entries (instead of the entry `"a.txt"` with payload `b"xyz"`). -/
theorem scenario_encode_decode :
    (buildPak m1 p1).map List.length = .ok 30
    ∧ (buildPak m1 p1).map (fun d => d.getD 8 0) = .ok 0x80
    ∧ (repack_pak m1 p1).map (fun bs => find_correct_key bs) = .ok (.ok (some [0xf7]))
    ∧ (unpack_of_repack m1 p1).map (fun r => (r.version, r.entries, r.extracted))
        = .ok (0, ([] : List Entry), ([] : List (Nat × List Nat))) :=
  ⟨by decide, by decide, by decide, by decide⟩

/-- C6 (divergence witness): the provider returns 2 bytes for an entry whose
recorded size is 3, yet `repack_pak` succeeds and produces a (29-byte)
archive instead of failing with a size-mismatch error. -/
theorem repack_accepts_size_mismatch :
    (p6 aName).map List.length = some 2
    ∧ (m1.files.getD 0 default).size = 3
    ∧ (repack_pak m1 p6).map List.length = .ok 29 :=
  ⟨by decide, by decide, by decide⟩

/-- C7 (divergence witness): on the empty input no candidate key satisfies
the signature check, but `find_correct_key` raises `struct.error` (in the
unguarded `[0xf7]` tier) instead of returning the not-found result. -/
theorem find_key_short_input_raises :
    candidateList.find? (checkCand []) = none
    ∧ find_correct_key [] = .error .structError :=
  ⟨by decide, by decide⟩
